import Mathlib

/-!
Shallow embedding of `Code/d_scale_model.py` (class `DScaleModel`): the
construction-time validation and shape derivation performed by `__init__` /
`define_graph`, the parameter allocation, and the forward pass built by the
inner function `generate_predictions`, together with proofs about them.

Modelling notes.

* `tf.placeholder` is Python-2-era TensorFlow: `define_graph` (called from
  `__init__`) builds the whole graph eagerly, including the call
  `self.preds = generate_predictions()` at the end, so every static shape
  error raised by TensorFlow (negative convolution/pooling output sizes,
  wrong tensor rank for `max_pool`, mismatched `matmul` operands) is a
  construction-time failure.  Construction is therefore embedded as a
  function `buildPy` into `Except`.
* The collaborators `tfutils.w`, `tfutils.b`, `tfutils.conv_out_size` and
  `constants.PADDING_D` are part of this repository but are not among the
  sources; they are modelled from the spec where indicated, and the padding
  constant is kept as an explicit parameter `pad` everywhere.
* Tensors are embedded as a static shape (a list of Python ints) plus a
  total map from index lists to real values; each operation pattern-matches
  on the index and returns 0 outside its rank pattern.  Machine floats are
  embedded as real numbers, as the spec's arithmetic (`1 / (1 + e^-x)`,
  `max(0, x)`, clipping) is stated over exact reals.
* `fc_layer_sizes.insert(0, ...)` on line 88 of the source mutates the
  caller-supplied Python list in place (the model aliases it).  `buildPy`
  makes that side effect observable by returning, next to the model, the
  value the caller's list holds after construction.
-/

namespace DScale

/-- Padding policy shared by the convolution stack and the pooling step.
The source reads it from `constants.PADDING_D`, which is not among the
sources, so the policy is kept as an explicit parameter throughout. -/
inductive Padding
  | SAME
  | VALID
deriving DecidableEq

/-- Modelled from the spec: `tfutils.conv_out_size` is not among the
sources.  Spec §4.1/§6 describe it as the pure spatial-size function whose
formula makes "valid" shrink the dimension by `kernel_size - 1` and "same"
preserve it; every call site in `d_scale_model.py` passes stride 1, which is
the behaviour given here (the stride argument is kept for signature
fidelity). -/
def conv_out_size (dim : ℤ) (pad : Padding) (kernel : ℤ) (stride : ℤ) : ℤ :=
  match pad with
  | .SAME => dim
  | .VALID => dim - (kernel - 1)

/-- Spatial output size of `tf.nn.max_pool` with window 2 and stride 2, as
inferred statically by TensorFlow: `SAME` rounds up (`⌈d/2⌉`), `VALID`
computes `⌊(d - 2)/2⌋ + 1`. -/
def pool_out_size (pad : Padding) (d : ℤ) : ℤ :=
  match pad with
  | .SAME => (d + 1).fdiv 2
  | .VALID => (d - 2).fdiv 2 + 1

/-- ScaleModelConfig: the arguments of `DScaleModel.__init__` (Python ints
and lists of ints). -/
structure Config where
  scale_index : ℤ
  height : ℤ
  width : ℤ
  conv_layer_fms : List ℤ
  kernel_sizes : List ℤ
  fc_layer_sizes : List ℤ
deriving DecidableEq

/-- Tensor: a TensorFlow tensor, embedded as a static shape together with a
total map from index lists to real values.  Only indices componentwise
inside the shape are meaningful; every operation below returns 0 outside
its rank pattern, so off-shape values are uniform junk. -/
structure Tensor where
  shape : List ℤ
  data : List ℕ → ℝ

theorem Tensor.eq_of (a b : Tensor) (h1 : a.shape = b.shape)
    (h2 : a.data = b.data) : a = b := by
  cases a; cases b; simp_all

/-- Tensor of zeros of the given static shape (`tf.zeros`). -/
def Tensor.zeros (s : List ℤ) : Tensor :=
  ⟨s, fun _ => 0⟩

/-- Weight/bias shapes requested by the convolution setup loop (lines
72-77): for each kernel the weight shape `[k, k, fms[i], fms[i+1]]` and the
bias shape `[fms[i+1]]`, walking the feature-map list. -/
def convSpecs : List ℤ → List ℤ → List (List ℤ × List ℤ)
  | k :: ks, f0 :: f1 :: fs => ([k, k, f0, f1], [f1]) :: convSpecs ks (f1 :: fs)
  | _, _ => []

/-- Weight/bias shapes requested by the fully-connected setup loop (lines
93-96): for each consecutive pair of the derived size list, the weight
shape `[sizes[i], sizes[i+1]]` and the bias shape `[sizes[i+1]]`. -/
def fcSpecs : List ℤ → List (List ℤ × List ℤ)
  | a :: b :: rest => ([a, b], [b]) :: fcSpecs (b :: rest)
  | _ => []

/-- Modelled from the spec: the initializers `tfutils.w` / `tfutils.b` are
not among the sources.  Per spec §4.2 an allocation request succeeds exactly
when every requested dimension is positive; a non-positive dimension is a
fatal configuration error.  `specsOK` is that success condition over a list
of weight/bias shape pairs (the values themselves come from the abstract
initializer arguments of `buildPy`). -/
def shapeOK (s : List ℤ) : Bool :=
  s.all (fun d => decide (0 < d))

def specsOK (specs : List (List ℤ × List ℤ)) : Bool :=
  specs.all (fun p => shapeOK p.1 && shapeOK p.2)

/-- Spatial dimension after the whole convolution stack: the running update
`last_out = conv_out_size(last_out, pad, kernel_sizes[i], 1)` of lines
79-82. -/
def convFinal (pad : Padding) (d : ℤ) (ks : List ℤ) : ℤ :=
  ks.foldl (fun a k => conv_out_size a pad k 1) d

/-- Flattened feature count inserted at the head of `fc_layer_sizes` on
lines 88-89: `(last_out_height / 2) * (last_out_width / 2) *
conv_layer_fms[-1]`, with Python-2 flooring integer division. -/
def flatCount (pad : Padding) (cfg : Config) : ℤ :=
  ((convFinal pad cfg.height cfg.kernel_sizes).fdiv 2) *
    ((convFinal pad cfg.width cfg.kernel_sizes).fdiv 2) *
    cfg.conv_layer_fms.getLastD 0

/-- DerivedFCSizes: the fully-connected size list after the `insert(0, ...)`
of line 88.  Because the insert mutates the caller's list in place, this is
also the value the caller-supplied `fc_layer_sizes` holds afterwards. -/
def derivedOf (pad : Padding) (cfg : Config) : List ℤ :=
  flatCount pad cfg :: cfg.fc_layer_sizes

/-- Per-layer TensorFlow check on the convolution stack of the forward
graph: each `tf.nn.conv2d` requires a positive static output size (a
"negative dimension size" error otherwise). -/
def convDimsOK (pad : Padding) : ℤ → List ℤ → Bool
  | _, [] => true
  | d, k :: ks =>
    let d2 := conv_out_size d pad k 1
    decide (1 ≤ d2) && convDimsOK pad d2 ks

/-- Static checks TensorFlow performs while `generate_predictions` builds
the forward graph (executed during construction, line 149):
`tf.nn.max_pool` requires a rank-4 input, so the convolution loop must run
at least once (otherwise `preds` is still the rank-2 `tf.zeros` tensor);
each convolution and the pooling step require positive output sizes; and
the first fully-connected `tf.matmul` requires the flattened width to equal
the first fully-connected weight's input dimension `derived[0]`. -/
def graphOK (pad : Padding) (cfg : Config) : Bool :=
  decide (cfg.kernel_sizes ≠ []) &&
  convDimsOK pad cfg.height cfg.kernel_sizes &&
  convDimsOK pad cfg.width cfg.kernel_sizes &&
  decide (1 ≤ pool_out_size pad (convFinal pad cfg.height cfg.kernel_sizes)) &&
  decide (1 ≤ pool_out_size pad (convFinal pad cfg.width cfg.kernel_sizes)) &&
  (match cfg.fc_layer_sizes with
   | [] => true
   | _ :: _ =>
     decide (pool_out_size pad (convFinal pad cfg.height cfg.kernel_sizes) *
         pool_out_size pad (convFinal pad cfg.width cfg.kernel_sizes) *
         cfg.conv_layer_fms.getLastD 0 = flatCount pad cfg))

/-- ScaleModel after a successful construction: the configuration, the
derived fully-connected size list, and the allocated parameter tensors. -/
structure Model where
  config : Config
  derivedFC : List ℤ
  conv_ws : List Tensor
  conv_bs : List Tensor
  fc_ws : List Tensor
  fc_bs : List Tensor

/-- Parameter store produced by the setup loops, with values supplied by the
abstract weight/bias initializers `iw`/`ib`. -/
def mkModel (iw ib : List ℤ → List ℕ → ℝ) (pad : Padding) (cfg : Config) :
    Model :=
  { config := cfg
    derivedFC := derivedOf pad cfg
    conv_ws := (convSpecs cfg.kernel_sizes cfg.conv_layer_fms).map
      (fun p => ⟨p.1, iw p.1⟩)
    conv_bs := (convSpecs cfg.kernel_sizes cfg.conv_layer_fms).map
      (fun p => ⟨p.2, ib p.2⟩)
    fc_ws := (fcSpecs (derivedOf pad cfg)).map (fun p => ⟨p.1, iw p.1⟩)
    fc_bs := (fcSpecs (derivedOf pad cfg)).map (fun p => ⟨p.2, ib p.2⟩) }

/-- Construction (`__init__`, which runs `define_graph` eagerly): the
length assertion of lines 33-34, the placeholder of lines 55-56 (TensorFlow
rejects negative placeholder dimensions), allocation of the convolutional
and fully-connected parameters (failing on non-positive dimensions, spec
§4.2), and the static checks of the forward graph built on line 149.
On success it returns the model together with the value the caller-supplied
`fc_layer_sizes` list holds after construction (the line-88 `insert`
mutates that list in place). -/
def buildPy (iw ib : List ℤ → List ℕ → ℝ) (pad : Padding) (cfg : Config) :
    Except String (Model × List ℤ) :=
  if (cfg.kernel_sizes.length : ℤ) = (cfg.conv_layer_fms.length : ℤ) - 1 then
    if 0 ≤ cfg.height ∧ 0 ≤ cfg.width then
      if specsOK (convSpecs cfg.kernel_sizes cfg.conv_layer_fms) then
        if specsOK (fcSpecs (derivedOf pad cfg)) then
          if graphOK pad cfg then
            .ok (mkModel iw ib pad cfg, derivedOf pad cfg)
          else .error "graph construction failed"
        else .error "fc allocation failed: non-positive dimension"
      else .error "conv allocation failed: non-positive dimension"
    else .error "invalid placeholder shape"
  else .error "len(kernel_sizes) must = len(conv_layer_fms) - 1"

/-- Top/left zero-padding offset of `tf.nn.conv2d` for stride 1: `SAME`
pads by `(k-1)/2` on the top/left (total `k-1`), `VALID` pads by 0. -/
def padOff (pad : Padding) (k : ℕ) : ℕ :=
  match pad with
  | .SAME => (k - 1) / 2
  | .VALID => 0

/-- Value of a rank-4 tensor at integer spatial coordinates, 0 outside the
spatial bounds (the zero padding of `tf.nn.conv2d`). -/
noncomputable def spatialVal (t : Tensor) (n : ℕ) (h wd : ℤ) (r s : ℤ)
    (c : ℕ) : ℝ :=
  if 0 ≤ r ∧ r < h ∧ 0 ≤ s ∧ s < wd then t.data [n, r.toNat, s.toNat, c]
  else 0

/-- `tf.nn.conv2d(x, w, [1, 1, 1, 1], padding)` (line 117): stride-1 2-D
convolution of a rank-4 `[batch, height, width, in]` tensor with a
`[k, k, in, out]` filter, with the padding policy's zero padding.  The
static output shape follows TensorFlow's inference (`conv_out_size` for
stride 1). -/
noncomputable def conv2d (pad : Padding) (x wT : Tensor) : Tensor where
  shape :=
    match x.shape, wT.shape with
    | [n, h, wd, _], [k, _, _, co] =>
      [n, conv_out_size h pad k 1, conv_out_size wd pad k 1, co]
    | _, _ => x.shape
  data := fun idx =>
    match idx, x.shape, wT.shape with
    | [n, i, j, o], [_, h, wd, _], [k, _, ci, _] =>
      ∑ ki ∈ Finset.range k.toNat, ∑ kj ∈ Finset.range k.toNat,
        ∑ c ∈ Finset.range ci.toNat,
          spatialVal x n h wd ((i : ℤ) + ki - padOff pad k.toNat)
              ((j : ℤ) + kj - padOff pad k.toNat) c *
            wT.data [ki, kj, c, o]
    | _, _, _ => 0

/-- Broadcast bias addition (`preds + conv_bs[i]` on line 119 for rank-4
tensors, `tf.matmul(...) + fc_bs[i]` on line 135 for rank-2): the bias is
indexed by the last (channel/feature) index position. -/
noncomputable def addBias (x bT : Tensor) : Tensor where
  shape := x.shape
  data := fun idx =>
    match idx with
    | [_, _, _, o] => x.data idx + bT.data [o]
    | [_, f] => x.data idx + bT.data [f]
    | _ => 0

/-- `tf.nn.relu` (lines 119 and 141): elementwise `max(0, x)`. -/
noncomputable def reluT (x : Tensor) : Tensor where
  shape := x.shape
  data := fun idx => max 0 (x.data idx)

/-- `tf.sigmoid` (line 139): elementwise `1 / (1 + e^-x)`. -/
noncomputable def sigmoidT (x : Tensor) : Tensor where
  shape := x.shape
  data := fun idx => 1 / (1 + Real.exp (-(x.data idx)))

/-- `tf.clip_by_value(preds, 0.1, 0.9)` (line 145): elementwise
`min(max(x, 0.1), 0.9)`. -/
noncomputable def clipT (x : Tensor) : Tensor where
  shape := x.shape
  data := fun idx => min (max (x.data idx) 0.1) 0.9

/-- `tf.nn.max_pool(preds, [1, 2, 2, 1], [1, 2, 2, 1], padding)` (line
125): maximum of the in-bounds entries of each 2x2 stride-2 window. -/
noncomputable def maxPool (pad : Padding) (x : Tensor) : Tensor where
  shape :=
    match x.shape with
    | [n, h, wd, c] => [n, pool_out_size pad h, pool_out_size pad wd, c]
    | s => s
  data := fun idx =>
    match idx, x.shape with
    | [n, i, j, c], [_, h, wd, _] =>
      let v0 := x.data [n, 2 * i, 2 * j, c]
      let v1 := if (2 * j + 1 : ℤ) < wd then
          max v0 (x.data [n, 2 * i, 2 * j + 1, c]) else v0
      let v2 := if (2 * i + 1 : ℤ) < h then
          max v1 (x.data [n, 2 * i + 1, 2 * j, c]) else v1
      if (2 * i + 1 : ℤ) < h ∧ (2 * j + 1 : ℤ) < wd then
        max v2 (x.data [n, 2 * i + 1, 2 * j + 1, c]) else v2
    | _, _ => 0

/-- `tf.reshape(preds, [-1, shape[1] * shape[2] * shape[3]])` (lines
128-130): flatten each example of a rank-4 tensor in height-major,
width, channel order; the flattened width comes from the static shape. -/
noncomputable def flatten2 (x : Tensor) : Tensor where
  shape :=
    match x.shape with
    | [n, s1, s2, s3] => [n, s1 * s2 * s3]
    | s => s
  data := fun idx =>
    match idx, x.shape with
    | [n, f], [_, _, s2, s3] =>
      x.data [n, f / (s2.toNat * s3.toNat), (f / s3.toNat) % s2.toNat,
        f % s3.toNat]
    | _, _ => 0

/-- `tf.matmul(preds, fc_ws[i])` (line 135): a `[batch, a]` by `[a, b]`
matrix product. -/
noncomputable def matmulT (x wT : Tensor) : Tensor where
  shape :=
    match x.shape, wT.shape with
    | [n, _], [_, b2] => [n, b2]
    | _, _ => x.shape
  data := fun idx =>
    match idx, wT.shape with
    | [n, j], [a, _] =>
      ∑ t ∈ Finset.range a.toNat, x.data [n, t] * wT.data [t, j]
    | _, _ => 0

/-- Convolution loop of lines 114-121, threading the pair
`(preds, last_input)`: each iteration convolves `last_input`, adds the
bias, applies ReLU, and feeds the result to the next iteration; when the
weight list is empty `preds` keeps its incoming value (the `tf.zeros`
tensor). -/
noncomputable def convLoop (pad : Padding) :
    List Tensor → List Tensor → Tensor → Tensor → Tensor
  | [], _, preds, _ => preds
  | wT :: ws, bT :: bs, _, last_input =>
    let p := reluT (addBias (conv2d pad last_input wT) bT)
    convLoop pad ws bs p p
  | _ :: _, [], preds, _ => preds

/-- Fully-connected loop of lines 133-141: each layer computes
`matmul + bias` in index order, then applies sigmoid if it is the last
layer (`i == len(fc_ws) - 1`) and ReLU otherwise. -/
noncomputable def fcLoop : List Tensor → List Tensor → Tensor → Tensor
  | [], _, x => x
  | wT :: ws, bT :: bs, x =>
    let y := addBias (matmulT x wT) bT
    match ws with
    | [] => sigmoidT y
    | _ :: _ => fcLoop ws bs (reluT y)
  | _ :: _, [], x => x

/-- The forward pass `generate_predictions` (lines 102-147): start from
`preds = tf.zeros([batch_size, 1])` (with `batch_size = tf.shape(input)[0]`)
and `last_input = input_frames`, run the convolution loop, the single
pooling step, the flatten, the fully-connected loop, and the stability
clip. -/
noncomputable def generate_predictions (pad : Padding) (m : Model)
    (input_frames : Tensor) : Tensor :=
  let batch_size := input_frames.shape.headI
  let preds := Tensor.zeros [batch_size, 1]
  let afterConv := convLoop pad m.conv_ws m.conv_bs preds input_frames
  let pooled := maxPool pad afterConv
  let flat := flatten2 pooled
  let afterFC := fcLoop m.fc_ws m.fc_bs flat
  clipT afterFC

/-- Prediction entry point viewed as a state transformer on the parameter
store: the source's `generate_predictions` only reads the parameter
tensors (`conv_ws`, `conv_bs`, `fc_ws`, `fc_bs`) and creates new
intermediate tensors, so the store after the call is the store it was
given. -/
noncomputable def predictCall (pad : Padding) (m : Model)
    (input_frames : Tensor) : Tensor × Model :=
  (generate_predictions pad m input_frames, m)

/-! ### Construction lemmas -/

theorem buildPy_ok_iff (iw ib : List ℤ → List ℕ → ℝ) (pad : Padding)
    (cfg : Config) (m : Model) (post : List ℤ) :
    buildPy iw ib pad cfg = .ok (m, post) ↔
      ((cfg.kernel_sizes.length : ℤ) = (cfg.conv_layer_fms.length : ℤ) - 1 ∧
        (0 ≤ cfg.height ∧ 0 ≤ cfg.width) ∧
        specsOK (convSpecs cfg.kernel_sizes cfg.conv_layer_fms) = true ∧
        specsOK (fcSpecs (derivedOf pad cfg)) = true ∧
        graphOK pad cfg = true) ∧
      m = mkModel iw ib pad cfg ∧ post = derivedOf pad cfg := by
  unfold buildPy
  split_ifs with h1 h2 h3 h4 h5
  · constructor
    · intro h
      injection h with h'
      cases h'
      exact ⟨⟨h1, h2, h3, h4, h5⟩, rfl, rfl⟩
    · rintro ⟨-, rfl, rfl⟩; rfl
  · exact iff_of_false (fun h => by cases h) (fun hh => h5 hh.1.2.2.2.2)
  · exact iff_of_false (fun h => by cases h) (fun hh => h4 hh.1.2.2.2.1)
  · exact iff_of_false (fun h => by cases h) (fun hh => h3 hh.1.2.2.1)
  · exact iff_of_false (fun h => by cases h) (fun hh => h2 hh.1.2.1)
  · exact iff_of_false (fun h => by cases h) (fun hh => h1 hh.1.1)

theorem convSpecs_length :
    ∀ (ks fs : List ℤ), fs.length = ks.length + 1 →
      (convSpecs ks fs).length = ks.length := by
  intro ks
  induction ks with
  | nil => intro fs _; rfl
  | cons k ks ih =>
    intro fs hlen
    match fs, hlen with
    | f0 :: f1 :: fs, hlen =>
      simp only [convSpecs, List.length_cons]
      rw [ih (f1 :: fs) (by simpa using hlen)]

theorem fcSpecs_length :
    ∀ (l : List ℤ) (a : ℤ), (fcSpecs (a :: l)).length = l.length := by
  intro l
  induction l with
  | nil => intro a; rfl
  | cons b r ih => intro a; simp only [fcSpecs, List.length_cons, ih b]

theorem mem_fcSpecs_of_mem {d : ℤ} :
    ∀ l : List ℤ, d ∈ l → 2 ≤ l.length → ∃ p ∈ fcSpecs l, d ∈ p.1 := by
  intro l
  induction l with
  | nil => intro h; cases h
  | cons a t ih =>
    intro hd hlen
    match t, hlen with
    | b :: r, _ =>
      rcases List.mem_cons.1 hd with h | h
      · exact ⟨([a, b], [b]), List.mem_cons_self .., by simp [h]⟩
      · match r, h with
        | [], h =>
          have hb : d = b := by simpa using h
          exact ⟨([a, b], [b]), List.mem_cons_self .., by simp [hb]⟩
        | r1 :: rs, h =>
          obtain ⟨p, hp, hdp⟩ := ih h (by simp)
          exact ⟨p, List.mem_cons_of_mem _ hp, hdp⟩

/-! ### Concrete instances used by witnesses

`cfg0` is the end-to-end configuration of spec §8 (`height = 64`,
`width = 64`, `conv_layer_fms = [3, 8, 16]`, `kernel_sizes = [3, 3]`,
`fc_layer_sizes = [1]`, "valid" padding), with all-zero initializers and an
all-zero input batch of 4 frames. -/

def iw0 : List ℤ → List ℕ → ℝ := fun _ _ => 0

def ib0 : List ℤ → List ℕ → ℝ := fun _ _ => 0

def cfg0 : Config := ⟨0, 64, 64, [3, 8, 16], [3, 3], [1]⟩

def m0 : Model := mkModel iw0 ib0 .VALID cfg0

noncomputable def x0 : Tensor := ⟨[4, 64, 64, 3], fun _ => 0⟩

theorem buildPy_cfg0 :
    buildPy iw0 ib0 .VALID cfg0 = .ok (m0, [14400, 1]) := by
  rw [buildPy_ok_iff]
  refine ⟨⟨by decide, by decide, by decide, ?_, ?_⟩, rfl, ?_⟩ <;> decide

/-! ### Claims C5, C2, C4, C8, C10 -/

/-- C5: for every pair of sequences with
`len(kernel_sizes) != len(conv_layer_fms) - 1`, construction fails with the
configuration error of the line-33 assertion, and no model is produced. -/
theorem c5_length_mismatch_fails (iw ib : List ℤ → List ℕ → ℝ)
    (pad : Padding) (cfg : Config)
    (h : (cfg.kernel_sizes.length : ℤ) ≠ (cfg.conv_layer_fms.length : ℤ) - 1) :
    buildPy iw ib pad cfg =
      .error "len(kernel_sizes) must = len(conv_layer_fms) - 1" := by
  unfold buildPy
  rw [if_neg h]

theorem c5_witness :
    ((Config.mk 0 64 64 [3, 8, 16] [3] [1]).kernel_sizes.length : ℤ) ≠
        ((Config.mk 0 64 64 [3, 8, 16] [3] [1]).conv_layer_fms.length : ℤ) - 1 ∧
      buildPy iw0 ib0 .VALID (Config.mk 0 64 64 [3, 8, 16] [3] [1]) =
        .error "len(kernel_sizes) must = len(conv_layer_fms) - 1" :=
  ⟨by decide,
    c5_length_mismatch_fails iw0 ib0 .VALID _ (by decide)⟩

/-- C2 counterexample: the spec §8 configuration is accepted, yet after
construction the caller-supplied `fc_layer_sizes` list (aliased by the
model and mutated by the line-88 `insert`) holds `[14400, 1]`, not its
original value `[1]`: the original config sequence IS mutated in place. -/
theorem c2_counterexample :
    (buildPy iw0 ib0 .VALID cfg0).toOption.map Prod.snd = some [14400, 1] ∧
      cfg0.fc_layer_sizes ≠ [14400, 1] := by
  rw [buildPy_cfg0]
  exact ⟨rfl, by decide⟩

/-- C2 (amended): construction does not copy the caller-supplied
`fc_layer_sizes`; it inserts the flattened feature count at its head in
place, so after a successful construction the caller's sequence equals the
derived sequence `flatCount :: fc_layer_sizes`, which is exactly the
sequence the model holds (they are the same mutated list object). -/
theorem c2_amended_insert_mutates (iw ib : List ℤ → List ℕ → ℝ)
    (pad : Padding) (cfg : Config) (m : Model) (post : List ℤ)
    (hb : buildPy iw ib pad cfg = .ok (m, post)) :
    post = flatCount pad cfg :: cfg.fc_layer_sizes ∧ m.derivedFC = post := by
  obtain ⟨-, hm, hp⟩ := (buildPy_ok_iff iw ib pad cfg m post).1 hb
  subst hm; subst hp
  exact ⟨rfl, rfl⟩

theorem c2_amended_witness :
    ([14400, 1] : List ℤ) = flatCount .VALID cfg0 :: cfg0.fc_layer_sizes ∧
      m0.derivedFC = [14400, 1] :=
  c2_amended_insert_mutates iw0 ib0 .VALID cfg0 m0 [14400, 1] buildPy_cfg0

/-- C4: for configurations whose `fc_layer_sizes` is nonempty (per the
data-model its last entry is the output width), any non-positive entry of
the derived size list — in particular a non-positive flattened feature
count — makes construction fail with a configuration error; and
construction is atomic: any returned model is fully built, with one
weight/bias pair per convolutional layer and per consecutive pair of the
derived size list (spec §4.2 postconditions). -/
theorem c4_nonpositive_derived_fails :
    (∀ (iw ib : List ℤ → List ℕ → ℝ) (pad : Padding) (cfg : Config) (d : ℤ),
      cfg.fc_layer_sizes ≠ [] → d ∈ derivedOf pad cfg → d ≤ 0 →
        ∃ msg, buildPy iw ib pad cfg = .error msg) ∧
    (∀ (iw ib : List ℤ → List ℕ → ℝ) (pad : Padding) (cfg : Config)
        (m : Model) (post : List ℤ), buildPy iw ib pad cfg = .ok (m, post) →
      m.conv_ws.length = cfg.kernel_sizes.length ∧
        m.conv_bs.length = cfg.kernel_sizes.length ∧
        m.fc_ws.length + 1 = m.derivedFC.length ∧
        m.fc_bs.length + 1 = m.derivedFC.length ∧
        m.derivedFC = derivedOf pad cfg) := by
  constructor
  · intro iw ib pad cfg d hne hmem hd
    match h : buildPy iw ib pad cfg with
    | .error msg => exact ⟨msg, rfl⟩
    | .ok (m, post) =>
      exfalso
      obtain ⟨⟨-, -, -, hfc, -⟩, -, -⟩ :=
        (buildPy_ok_iff iw ib pad cfg m post).1 h
      have hlen : 2 ≤ (derivedOf pad cfg).length := by
        have : cfg.fc_layer_sizes.length ≠ 0 :=
          fun h => hne (List.length_eq_zero.1 h)
        simp only [derivedOf, List.length_cons]
        omega
      obtain ⟨p, hp, hdp⟩ := mem_fcSpecs_of_mem (derivedOf pad cfg) hmem hlen
      simp only [specsOK, List.all_eq_true] at hfc
      have hall := hfc p hp
      rw [Bool.and_eq_true] at hall
      simp only [shapeOK, List.all_eq_true] at hall
      have hpos := hall.1 d hdp
      simp at hpos
      omega
  · intro iw ib pad cfg m post hb
    obtain ⟨⟨hlen, -, -, -, -⟩, hm, -⟩ :=
      (buildPy_ok_iff iw ib pad cfg m post).1 hb
    have hfms : cfg.conv_layer_fms.length = cfg.kernel_sizes.length + 1 := by
      omega
    subst hm
    have hconv := convSpecs_length cfg.kernel_sizes cfg.conv_layer_fms hfms
    have hfcl := fcSpecs_length cfg.fc_layer_sizes (flatCount pad cfg)
    refine ⟨?_, ?_, ?_, ?_, rfl⟩ <;>
      simp [mkModel, hconv, derivedOf, hfcl]

theorem c4_witness :
    (0 : ℤ) ∈ derivedOf .VALID (Config.mk 0 64 64 [3, 8, 16] [3, 3] [0]) ∧
      ∃ msg, buildPy iw0 ib0 .VALID (Config.mk 0 64 64 [3, 8, 16] [3, 3] [0]) =
        .error msg :=
  ⟨by decide,
    c4_nonpositive_derived_fails.1 iw0 ib0 .VALID _ 0 (by decide) (by decide)
      (by decide)⟩

/-- C8: `predict` is deterministic and side-effect-free in the embedding of
`generate_predictions`: viewed as a state transformer on the parameter
store, the store after a call is the store that was passed in, and two
calls with identical input and identical parameters return identical
predictions. -/
theorem c8_predict_pure (pad : Padding) (m : Model) (x y : Tensor) :
    (predictCall pad m x).2 = m ∧
      (x = y → (predictCall pad m x).1 = (predictCall pad m y).1) :=
  ⟨rfl, fun h => by rw [h]⟩

theorem c8_witness :
    (predictCall .VALID m0 x0).2 = m0 ∧
      (predictCall .VALID m0 x0).1 = (predictCall .VALID m0 x0).1 :=
  ⟨(c8_predict_pure .VALID m0 x0 x0).1, (c8_predict_pure .VALID m0 x0 x0).2 rfl⟩

/-- C10: for a configuration with empty `kernel_sizes`, the graph of
`define_graph` has no convolutional parameters, the convolution loop of
`generate_predictions` returns its initial `tf.zeros([batch_size, 1])`
tensor unchanged — so that zero tensor, not the input frames, is what the
pooling step receives — and the whole forward output is independent of the
input frames (it depends on the input only through the batch size read by
`tf.shape(input)[0]`). -/
theorem c10_empty_conv_zeros (iw ib : List ℤ → List ℕ → ℝ) (pad : Padding)
    (cfg : Config) (x y : Tensor) (hk : cfg.kernel_sizes = [])
    (hxy : x.shape.headI = y.shape.headI) :
    (mkModel iw ib pad cfg).conv_ws = [] ∧
      convLoop pad (mkModel iw ib pad cfg).conv_ws
          (mkModel iw ib pad cfg).conv_bs
          (Tensor.zeros [x.shape.headI, 1]) x =
        Tensor.zeros [x.shape.headI, 1] ∧
      generate_predictions pad (mkModel iw ib pad cfg) x =
        generate_predictions pad (mkModel iw ib pad cfg) y := by
  have hcw : (mkModel iw ib pad cfg).conv_ws = [] := by
    simp [mkModel, hk, convSpecs]
  refine ⟨hcw, ?_, ?_⟩
  · rw [hcw]; rfl
  · unfold generate_predictions
    rw [hcw, hxy]
    rfl

noncomputable def mEmptyIn : Tensor := ⟨[4, 1, 1, 1], fun _ => 1⟩

theorem c10_witness :
    (mkModel iw0 ib0 .SAME (Config.mk 0 64 64 [3] [] [1])).conv_ws = [] ∧
      convLoop .SAME (mkModel iw0 ib0 .SAME (Config.mk 0 64 64 [3] [] [1])).conv_ws
          (mkModel iw0 ib0 .SAME (Config.mk 0 64 64 [3] [] [1])).conv_bs
          (Tensor.zeros [x0.shape.headI, 1]) x0 =
        Tensor.zeros [x0.shape.headI, 1] ∧
      generate_predictions .SAME (mkModel iw0 ib0 .SAME (Config.mk 0 64 64 [3] [] [1])) x0 =
        generate_predictions .SAME (mkModel iw0 ib0 .SAME (Config.mk 0 64 64 [3] [] [1])) mEmptyIn :=
  c10_empty_conv_zeros iw0 ib0 .SAME _ x0 mEmptyIn rfl rfl

/-! ### Static shapes of the forward-pass operations -/

theorem conv2d_shape (pad : Padding) (x wT : Tensor) (n h wd c k ci co : ℤ)
    (hx : x.shape = [n, h, wd, c]) (hw : wT.shape = [k, k, ci, co]) :
    (conv2d pad x wT).shape =
      [n, conv_out_size h pad k 1, conv_out_size wd pad k 1, co] := by
  simp [conv2d, hx, hw]

theorem addBias_shape (x bT : Tensor) : (addBias x bT).shape = x.shape := rfl

theorem reluT_shape (x : Tensor) : (reluT x).shape = x.shape := rfl

theorem sigmoidT_shape (x : Tensor) : (sigmoidT x).shape = x.shape := rfl

theorem clipT_shape (x : Tensor) : (clipT x).shape = x.shape := rfl

theorem maxPool_shape (pad : Padding) (x : Tensor) (n h wd c : ℤ)
    (hx : x.shape = [n, h, wd, c]) :
    (maxPool pad x).shape =
      [n, pool_out_size pad h, pool_out_size pad wd, c] := by
  simp [maxPool, hx]

theorem flatten2_shape (x : Tensor) (n s1 s2 s3 : ℤ)
    (hx : x.shape = [n, s1, s2, s3]) :
    (flatten2 x).shape = [n, s1 * s2 * s3] := by
  simp [flatten2, hx]

theorem matmulT_shape (x wT : Tensor) (n a a2 b2 : ℤ)
    (hx : x.shape = [n, a]) (hw : wT.shape = [a2, b2]) :
    (matmulT x wT).shape = [n, b2] := by
  simp [matmulT, hx, hw]

/-- Static shape of the convolution loop, for the parameter tensors the
setup loop allocates: starting from an input of shape
`[n, h, wd, fms.head]`, a nonempty stack ends with shape
`[n, convFinal h, convFinal wd, fms.last]`. -/
theorem convLoop_shape (pad : Padding) (iw ib : List ℤ → List ℕ → ℝ) :
    ∀ (ks fs : List ℤ) (f0 n h wd : ℤ) (p0 x : Tensor),
      fs.length = ks.length → ks ≠ [] → x.shape = [n, h, wd, f0] →
      (convLoop pad
          ((convSpecs ks (f0 :: fs)).map (fun p => ⟨p.1, iw p.1⟩))
          ((convSpecs ks (f0 :: fs)).map (fun p => ⟨p.2, ib p.2⟩))
          p0 x).shape =
        [n, convFinal pad h ks, convFinal pad wd ks, (f0 :: fs).getLastD 0] := by
  intro ks
  induction ks with
  | nil => intro fs f0 n h wd p0 x _ hne _; exact absurd rfl hne
  | cons k ks ih =>
    intro fs f0 n h wd p0 x hlen _ hx
    match fs, hlen with
    | f1 :: fs, hlen =>
      simp only [convSpecs, List.map_cons, convLoop]
      have hp : (reluT (addBias (conv2d pad x ⟨[k, k, f0, f1], iw [k, k, f0, f1]⟩)
          ⟨[f1], ib [f1]⟩)).shape =
          [n, conv_out_size h pad k 1, conv_out_size wd pad k 1, f1] := by
        rw [reluT_shape, addBias_shape]
        exact conv2d_shape pad x _ n h wd f0 k f0 f1 hx rfl
      cases ks with
      | nil =>
        match fs, hlen with
        | [], _ =>
          simp only [convSpecs, List.map_nil, convLoop]
          rw [hp]
          rfl
      | cons k2 ks2 =>
        rw [ih fs f1 n (conv_out_size h pad k 1) (conv_out_size wd pad k 1) _ _
          (by simpa using hlen) (by simp) hp]
        have hh : convFinal pad h (k :: k2 :: ks2) =
            convFinal pad (conv_out_size h pad k 1) (k2 :: ks2) := rfl
        have hw : convFinal pad wd (k :: k2 :: ks2) =
            convFinal pad (conv_out_size wd pad k 1) (k2 :: ks2) := rfl
        rw [hh, hw]
        simp [List.getLastD_cons]

theorem fcLoop_cons_cons (w1 w2 b1 : Tensor) (ws bs : List Tensor)
    (x : Tensor) :
    fcLoop (w1 :: w2 :: ws) (b1 :: bs) x =
      fcLoop (w2 :: ws) bs (reluT (addBias (matmulT x w1) b1)) := rfl

theorem fcLoop_single (w1 b1 : Tensor) (bs : List Tensor) (x : Tensor) :
    fcLoop [w1] (b1 :: bs) x = sigmoidT (addBias (matmulT x w1) b1) := rfl

/-- Static shape of the fully-connected loop, for the parameter tensors the
setup loop allocates over the derived size list `d0 :: rest`: starting
from shape `[n, d0]`, the loop ends with shape `[n, (d0 :: rest).last]`
(when `rest` is empty there are no layers and the input passes through). -/
theorem fcLoop_shape (iw ib : List ℤ → List ℕ → ℝ) :
    ∀ (rest : List ℤ) (d0 n : ℤ) (x : Tensor), x.shape = [n, d0] →
      (fcLoop ((fcSpecs (d0 :: rest)).map (fun p => ⟨p.1, iw p.1⟩))
          ((fcSpecs (d0 :: rest)).map (fun p => ⟨p.2, ib p.2⟩)) x).shape =
        [n, (d0 :: rest).getLastD 0] := by
  intro rest
  induction rest with
  | nil => intro d0 n x hx; simpa [fcSpecs, fcLoop] using hx
  | cons d1 rest ih =>
    intro d0 n x hx
    have hy : (addBias (matmulT x ⟨[d0, d1], iw [d0, d1]⟩)
        ⟨[d1], ib [d1]⟩).shape = [n, d1] := by
      rw [addBias_shape]
      exact matmulT_shape x _ n d0 d0 d1 hx rfl
    cases rest with
    | nil =>
      simp only [fcSpecs, List.map_cons, List.map_nil, fcLoop, sigmoidT_shape]
      rw [hy]
      rfl
    | cons d2 rest2 =>
      have harm : fcSpecs (d0 :: d1 :: d2 :: rest2) =
          ([d0, d1], [d1]) :: fcSpecs (d1 :: d2 :: rest2) := rfl
      have hspec : fcSpecs (d1 :: d2 :: rest2) =
          ([d1, d2], [d2]) :: fcSpecs (d2 :: rest2) := rfl
      have hrelu : (reluT (addBias (matmulT x ⟨[d0, d1], iw [d0, d1]⟩)
          ⟨[d1], ib [d1]⟩)).shape = [n, d1] := by rw [reluT_shape]; exact hy
      have hih := ih d1 n (reluT (addBias (matmulT x ⟨[d0, d1], iw [d0, d1]⟩)
          ⟨[d1], ib [d1]⟩)) hrelu
      rw [hspec] at hih
      simp only [List.map_cons] at hih
      rw [harm]
      simp only [List.map_cons]
      rw [hspec]
      simp only [List.map_cons]
      rw [fcLoop_cons_cons, hih]
      simp [List.getLastD_cons]

/-- Flattened static shape reached by the forward pass of a successfully
built model: the convolution stack, the single pooling step, and the
flatten produce a `[batch, flatCount]` tensor.  The `graphOK` conjunct of
construction (TensorFlow's static `matmul` operand check) is what forces
the pooled product to equal the flooring `flatCount` computed on lines
88-89. -/
theorem flatten_shape_of_build (iw ib : List ℤ → List ℕ → ℝ) (pad : Padding)
    (cfg : Config) (m : Model) (post : List ℤ) (x : Tensor) (nb : ℤ)
    (hb : buildPy iw ib pad cfg = .ok (m, post))
    (hne : cfg.fc_layer_sizes ≠ [])
    (hx : x.shape = [nb, cfg.height, cfg.width, cfg.conv_layer_fms.headI]) :
    (flatten2 (maxPool pad (convLoop pad m.conv_ws m.conv_bs
        (Tensor.zeros [x.shape.headI, 1]) x))).shape =
      [nb, flatCount pad cfg] := by
  obtain ⟨⟨hlen, -, -, -, hg⟩, hm, -⟩ :=
    (buildPy_ok_iff iw ib pad cfg m post).1 hb
  subst hm
  have hfms : cfg.conv_layer_fms.length = cfg.kernel_sizes.length + 1 := by
    omega
  match hfmseq : cfg.conv_layer_fms, hfms with
  | f0 :: fs, hfms =>
    have hkne : cfg.kernel_sizes ≠ [] := by
      simp only [graphOK, Bool.and_eq_true, decide_eq_true_eq] at hg
      exact hg.1.1.1.1.1
    have hcs : (convLoop pad (mkModel iw ib pad cfg).conv_ws
        (mkModel iw ib pad cfg).conv_bs (Tensor.zeros [x.shape.headI, 1])
        x).shape =
        [nb, convFinal pad cfg.height cfg.kernel_sizes,
          convFinal pad cfg.width cfg.kernel_sizes, (f0 :: fs).getLastD 0] := by
      have : (mkModel iw ib pad cfg).conv_ws =
          (convSpecs cfg.kernel_sizes (f0 :: fs)).map (fun p => ⟨p.1, iw p.1⟩) := by
        simp [mkModel, hfmseq]
      rw [this]
      have hbs : (mkModel iw ib pad cfg).conv_bs =
          (convSpecs cfg.kernel_sizes (f0 :: fs)).map (fun p => ⟨p.2, ib p.2⟩) := by
        simp [mkModel, hfmseq]
      rw [hbs]
      exact convLoop_shape pad iw ib cfg.kernel_sizes fs f0 nb cfg.height
        cfg.width _ x (by simpa using hfms) hkne (by rw [hx, hfmseq]; rfl)
    have hps := maxPool_shape pad _ nb _ _ _ hcs
    have hfl := flatten2_shape _ nb _ _ _ hps
    rw [hfl]
    have hmm : pool_out_size pad (convFinal pad cfg.height cfg.kernel_sizes) *
        pool_out_size pad (convFinal pad cfg.width cfg.kernel_sizes) *
        cfg.conv_layer_fms.getLastD 0 = flatCount pad cfg := by
      simp only [graphOK, Bool.and_eq_true, decide_eq_true_eq] at hg
      have := hg.2
      match hfcs : cfg.fc_layer_sizes, hne with
      | a :: l, _ => rw [hfcs] at this; simpa using this
    rw [hfmseq] at hmm
    rw [hmm]

/-- C3: for every accepted configuration (with a fully-connected stack, as
the data model's `fc_layer_sizes` ends in the output width), the flattened
per-example vector produced in the forward pass — after the convolution
stack and the single 2x2 stride-2 pooling step — has exactly
`DerivedFCSizes[0]` entries, and that head entry is the value precomputed
at construction by iterating `conv_out_size` over height and width, halving
both (flooring), and multiplying by the last feature-map count. -/
theorem c3_flatten_length_eq_derived_head (iw ib : List ℤ → List ℕ → ℝ)
    (pad : Padding) (cfg : Config) (m : Model) (post : List ℤ) (x : Tensor)
    (nb : ℤ) (hb : buildPy iw ib pad cfg = .ok (m, post))
    (hne : cfg.fc_layer_sizes ≠ [])
    (hx : x.shape = [nb, cfg.height, cfg.width, cfg.conv_layer_fms.headI]) :
    (flatten2 (maxPool pad (convLoop pad m.conv_ws m.conv_bs
        (Tensor.zeros [x.shape.headI, 1]) x))).shape =
      [nb, m.derivedFC.headI] ∧
      m.derivedFC.headI = flatCount pad cfg := by
  have hd : m.derivedFC.headI = flatCount pad cfg := by
    obtain ⟨-, hm, -⟩ := (buildPy_ok_iff iw ib pad cfg m post).1 hb
    subst hm; rfl
  refine ⟨?_, hd⟩
  rw [hd]
  exact flatten_shape_of_build iw ib pad cfg m post x nb hb hne hx

theorem c3_witness :
    (flatten2 (maxPool .VALID (convLoop .VALID m0.conv_ws m0.conv_bs
        (Tensor.zeros [x0.shape.headI, 1]) x0))).shape =
      [4, m0.derivedFC.headI] ∧
      m0.derivedFC.headI = flatCount .VALID cfg0 :=
  c3_flatten_length_eq_derived_head iw0 ib0 .VALID cfg0 m0 [14400, 1] x0 4
    buildPy_cfg0 (by decide) rfl

/-- C1: for every successfully constructed model whose configured
`fc_layer_sizes` ends in output width 1 (the data-model convention behind
the `[batch_size, 1]` output type) and every input batch matching the
configured height, width and channel count, the forward pass returns a
tensor of static shape `[batch_size, 1]` whose every entry lies in the
closed interval `[0.1, 0.9]` (the stability clip is the last step, so the
bound holds for arbitrary real-valued input). -/
theorem c1_predict_shape_and_clip_range (iw ib : List ℤ → List ℕ → ℝ)
    (pad : Padding) (cfg : Config) (m : Model) (post : List ℤ) (x : Tensor)
    (nb : ℤ) (hb : buildPy iw ib pad cfg = .ok (m, post))
    (hne : cfg.fc_layer_sizes ≠ [])
    (hlast : cfg.fc_layer_sizes.getLastD 0 = 1)
    (hx : x.shape = [nb, cfg.height, cfg.width, cfg.conv_layer_fms.headI]) :
    (generate_predictions pad m x).shape = [nb, 1] ∧
      ∀ idx, 0.1 ≤ (generate_predictions pad m x).data idx ∧
        (generate_predictions pad m x).data idx ≤ 0.9 := by
  have hflat := flatten_shape_of_build iw ib pad cfg m post x nb hb hne hx
  have hgen : generate_predictions pad m x =
      clipT (fcLoop m.fc_ws m.fc_bs (flatten2 (maxPool pad
        (convLoop pad m.conv_ws m.conv_bs
          (Tensor.zeros [x.shape.headI, 1]) x)))) := rfl
  constructor
  · obtain ⟨-, hm, -⟩ := (buildPy_ok_iff iw ib pad cfg m post).1 hb
    rw [hgen, clipT_shape]
    have hws : m.fc_ws =
        (fcSpecs (flatCount pad cfg :: cfg.fc_layer_sizes)).map
          (fun p => ⟨p.1, iw p.1⟩) := by
      subst hm; rfl
    have hbs : m.fc_bs =
        (fcSpecs (flatCount pad cfg :: cfg.fc_layer_sizes)).map
          (fun p => ⟨p.2, ib p.2⟩) := by
      subst hm; rfl
    rw [hws, hbs,
      fcLoop_shape iw ib cfg.fc_layer_sizes (flatCount pad cfg) nb _ hflat]
    obtain ⟨c, cs, hfc⟩ : ∃ c cs, cfg.fc_layer_sizes = c :: cs := by
      cases h : cfg.fc_layer_sizes with
      | nil => exact absurd h hne
      | cons a l => exact ⟨a, l, rfl⟩
    rw [hfc] at hlast ⊢
    rw [List.getLastD_cons] at hlast
    simp only [List.getLastD_cons]
    rw [hlast]
  · intro idx
    rw [hgen]
    refine ⟨le_min (le_max_right _ _) (by norm_num), min_le_right _ _⟩

theorem c1_witness :
    (generate_predictions .VALID m0 x0).shape = [4, 1] ∧
      ∀ idx, 0.1 ≤ (generate_predictions .VALID m0 x0).data idx ∧
        (generate_predictions .VALID m0 x0).data idx ≤ 0.9 :=
  c1_predict_shape_and_clip_range iw0 ib0 .VALID cfg0 m0 [14400, 1] x0 4
    buildPy_cfg0 (by decide) (by decide) rfl

/-! ### C6: one pooling step, after all convolutions -/

/-- Pure convolution stack: convolve/bias/ReLU each layer in index order,
with no pooling anywhere inside. -/
noncomputable def convStack (pad : Padding) :
    List Tensor → List Tensor → Tensor → Tensor
  | [], _, t => t
  | wT :: ws, bT :: bs, t =>
    convStack pad ws bs (reluT (addBias (conv2d pad t wT) bT))
  | _ :: _, [], t => t

theorem convLoop_eq_convStack (pad : Padding) :
    ∀ (ws bs : List Tensor) (p0 x : Tensor), ws.length = bs.length →
      ws ≠ [] → convLoop pad ws bs p0 x = convStack pad ws bs x := by
  intro ws
  induction ws with
  | nil => intro bs p0 x _ hne; exact absurd rfl hne
  | cons w ws ih =>
    intro bs p0 x hlen _
    match bs, hlen with
    | b :: bs, hlen =>
      show convLoop pad ws bs _ _ = convStack pad ws bs _
      cases ws with
      | nil =>
        match bs, hlen with
        | [], _ => rfl
      | cons w2 ws2 =>
        exact ih bs _ _ (by simpa using hlen) (by simp)

/-- C6: in every forward pass over a nonempty convolution stack, the
pipeline factors as `clip ∘ fcLoop ∘ flatten ∘ maxPool ∘ convStack`: the
2x2 stride-2 max-pooling step (same padding policy as the convolutions)
appears exactly once, applied to the output of the final convolutional
layer — `convStack` contains no pooling between layers — and its result is
exactly what gets flattened for the fully-connected stack. -/
theorem c6_single_pool_after_convs (pad : Padding) (m : Model) (x : Tensor)
    (hlen : m.conv_ws.length = m.conv_bs.length) (hne : m.conv_ws ≠ []) :
    generate_predictions pad m x =
      clipT (fcLoop m.fc_ws m.fc_bs (flatten2 (maxPool pad
        (convStack pad m.conv_ws m.conv_bs x)))) := by
  show clipT (fcLoop m.fc_ws m.fc_bs (flatten2 (maxPool pad
      (convLoop pad m.conv_ws m.conv_bs
        (Tensor.zeros [x.shape.headI, 1]) x)))) = _
  rw [convLoop_eq_convStack pad m.conv_ws m.conv_bs _ x hlen hne]

theorem m0_conv_ws_length : m0.conv_ws.length = 2 := rfl

theorem c6_witness :
    generate_predictions .VALID m0 x0 =
      clipT (fcLoop m0.fc_ws m0.fc_bs (flatten2 (maxPool .VALID
        (convStack .VALID m0.conv_ws m0.conv_bs x0)))) :=
  c6_single_pool_after_convs .VALID m0 x0 rfl
    (fun h => by
      have h2 := congrArg List.length h
      rw [m0_conv_ws_length] at h2
      simp at h2)

/-! ### C7: activations in the fully-connected stack -/

/-- All-but-last prefix of the fully-connected stack: affine layer then
ReLU, in index order. -/
noncomputable def fcChain : List Tensor → List Tensor → Tensor → Tensor
  | [], _, x => x
  | wT :: ws, bT :: bs, x => fcChain ws bs (reluT (addBias (matmulT x wT) bT))
  | _ :: _, [], x => x

theorem fcLoop_cons_of_ne (w b x : Tensor) (ws bs : List Tensor)
    (h : ws ≠ []) :
    fcLoop (w :: ws) (b :: bs) x =
      fcLoop ws bs (reluT (addBias (matmulT x w) b)) := by
  cases ws with
  | nil => exact absurd rfl h
  | cons w2 ws2 => rfl

/-- C7: the fully-connected loop computes `x @ fc_weights[i] + fc_bias[i]`
layer by layer in index order, applies ReLU after every layer except the
last, and applies the logistic sigmoid exactly once, to the output of the
last layer: for any split of the parameter lists into an initial segment
and a final pair, the loop equals the ReLU chain over the initial segment
followed by a single affine-then-sigmoid step. -/
theorem c7_fc_activations :
    ∀ (ws0 bs0 : List Tensor) (wL bL x : Tensor), ws0.length = bs0.length →
      fcLoop (ws0 ++ [wL]) (bs0 ++ [bL]) x =
        sigmoidT (addBias (matmulT (fcChain ws0 bs0 x) wL) bL) := by
  intro ws0
  induction ws0 with
  | nil =>
    intro bs0 wL bL x hlen
    match bs0, hlen with
    | [], _ => rfl
  | cons w ws0 ih =>
    intro bs0 wL bL x hlen
    match bs0, hlen with
    | b :: bs0, hlen =>
      rw [List.cons_append, List.cons_append,
        fcLoop_cons_of_ne w b x (ws0 ++ [wL]) (bs0 ++ [bL]) (by simp)]
      exact ih bs0 wL bL _ (by simpa using hlen)

noncomputable def t11 : Tensor := ⟨[1, 1], fun _ => 1⟩

noncomputable def t1 : Tensor := ⟨[1], fun _ => 1⟩

theorem c7_witness :
    fcLoop ([t11] ++ [t11]) ([t1] ++ [t1]) t11 =
      sigmoidT (addBias (matmulT (fcChain [t11] [t1] t11) t11) t1) :=
  c7_fc_activations [t11] [t1] t11 t1 t11 rfl

/-! ### C9: batch independence

`selectEx x k` is the batch of size 1 holding only example `k` of `x`:
its batch dimension is 1 and its per-example content is example `k`'s.
Every forward-pass operation acts on the batch dimension pointwise, so it
commutes with `selectEx`. -/

noncomputable def selectEx (x : Tensor) (k : ℕ) : Tensor where
  shape := 1 :: x.shape.tail
  data := fun idx => x.data (k :: idx.tail)

theorem reluT_selectEx (x : Tensor) (k : ℕ) :
    reluT (selectEx x k) = selectEx (reluT x) k := rfl

theorem sigmoidT_selectEx (x : Tensor) (k : ℕ) :
    sigmoidT (selectEx x k) = selectEx (sigmoidT x) k := rfl

theorem clipT_selectEx (x : Tensor) (k : ℕ) :
    clipT (selectEx x k) = selectEx (clipT x) k := rfl

theorem zeros_selectEx (a d : ℤ) (t : List ℤ) (k : ℕ) :
    selectEx (Tensor.zeros (a :: d :: t)) k = Tensor.zeros (1 :: d :: t) := rfl

theorem addBias_selectEx (x bT : Tensor) (k : ℕ) :
    addBias (selectEx x k) bT = selectEx (addBias x bT) k := by
  obtain ⟨xs, xd⟩ := x
  refine Tensor.eq_of _ _ rfl ?_
  funext idx
  rcases idx with _ | ⟨a1, _ | ⟨a2, _ | ⟨a3, _ | ⟨a4, _ | ⟨a5, t⟩⟩⟩⟩⟩ <;> rfl

theorem matmulT_selectEx (x wT : Tensor) (k : ℕ) :
    matmulT (selectEx x k) wT = selectEx (matmulT x wT) k := by
  obtain ⟨xs, xd⟩ := x
  obtain ⟨vs, vd⟩ := wT
  refine Tensor.eq_of _ _ ?_ ?_
  · rcases xs with _ | ⟨a1, _ | ⟨a2, _ | ⟨a3, _ | ⟨a4, _ | ⟨a5, t⟩⟩⟩⟩⟩ <;>
      rcases vs with _ | ⟨b1, _ | ⟨b2, _ | ⟨b3, _ | ⟨b4, _ | ⟨b5, u⟩⟩⟩⟩⟩ <;> rfl
  · funext idx
    rcases idx with _ | ⟨a1, _ | ⟨a2, _ | ⟨a3, _ | ⟨a4, _ | ⟨a5, t⟩⟩⟩⟩⟩ <;>
      rcases vs with _ | ⟨b1, _ | ⟨b2, _ | ⟨b3, _ | ⟨b4, _ | ⟨b5, u⟩⟩⟩⟩⟩ <;> rfl

theorem maxPool_selectEx (pad : Padding) (x : Tensor) (k : ℕ) :
    maxPool pad (selectEx x k) = selectEx (maxPool pad x) k := by
  obtain ⟨xs, xd⟩ := x
  refine Tensor.eq_of _ _ ?_ ?_
  · rcases xs with _ | ⟨a1, _ | ⟨a2, _ | ⟨a3, _ | ⟨a4, _ | ⟨a5, t⟩⟩⟩⟩⟩ <;> rfl
  · funext idx
    rcases idx with _ | ⟨a1, _ | ⟨a2, _ | ⟨a3, _ | ⟨a4, _ | ⟨a5, t⟩⟩⟩⟩⟩ <;>
      rcases xs with _ | ⟨b1, _ | ⟨b2, _ | ⟨b3, _ | ⟨b4, _ | ⟨b5, u⟩⟩⟩⟩⟩ <;> rfl

theorem flatten2_selectEx (x : Tensor) (k : ℕ) :
    flatten2 (selectEx x k) = selectEx (flatten2 x) k := by
  obtain ⟨xs, xd⟩ := x
  refine Tensor.eq_of _ _ ?_ ?_
  · rcases xs with _ | ⟨a1, _ | ⟨a2, _ | ⟨a3, _ | ⟨a4, _ | ⟨a5, t⟩⟩⟩⟩⟩ <;> rfl
  · funext idx
    rcases idx with _ | ⟨a1, _ | ⟨a2, _ | ⟨a3, _ | ⟨a4, _ | ⟨a5, t⟩⟩⟩⟩⟩ <;>
      rcases xs with _ | ⟨b1, _ | ⟨b2, _ | ⟨b3, _ | ⟨b4, _ | ⟨b5, u⟩⟩⟩⟩⟩ <;> rfl

theorem conv2d_selectEx (pad : Padding) (x wT : Tensor) (k : ℕ) :
    conv2d pad (selectEx x k) wT = selectEx (conv2d pad x wT) k := by
  obtain ⟨xs, xd⟩ := x
  obtain ⟨vs, vd⟩ := wT
  refine Tensor.eq_of _ _ ?_ ?_
  · rcases xs with _ | ⟨a1, _ | ⟨a2, _ | ⟨a3, _ | ⟨a4, _ | ⟨a5, t⟩⟩⟩⟩⟩ <;>
      rcases vs with _ | ⟨b1, _ | ⟨b2, _ | ⟨b3, _ | ⟨b4, _ | ⟨b5, u⟩⟩⟩⟩⟩ <;> rfl
  · funext idx
    rcases idx with _ | ⟨a1, _ | ⟨a2, _ | ⟨a3, _ | ⟨a4, _ | ⟨a5, t⟩⟩⟩⟩⟩ <;>
      rcases xs with _ | ⟨b1, _ | ⟨b2, _ | ⟨b3, _ | ⟨b4, _ | ⟨b5, u⟩⟩⟩⟩⟩ <;>
      rcases vs with _ | ⟨c1, _ | ⟨c2, _ | ⟨c3, _ | ⟨c4, _ | ⟨c5, v⟩⟩⟩⟩⟩ <;> rfl

theorem convLoop_selectEx (pad : Padding) :
    ∀ (ws bs : List Tensor) (p x : Tensor) (k : ℕ),
      convLoop pad ws bs (selectEx p k) (selectEx x k) =
        selectEx (convLoop pad ws bs p x) k := by
  intro ws
  induction ws with
  | nil => intro bs p x k; rfl
  | cons w ws ih =>
    intro bs p x k
    cases bs with
    | nil => rfl
    | cons b bs =>
      show convLoop pad ws bs
          (reluT (addBias (conv2d pad (selectEx x k) w) b))
          (reluT (addBias (conv2d pad (selectEx x k) w) b)) = _
      rw [conv2d_selectEx, addBias_selectEx, reluT_selectEx]
      exact ih bs _ _ k

theorem fcLoop_selectEx :
    ∀ (ws bs : List Tensor) (x : Tensor) (k : ℕ),
      fcLoop ws bs (selectEx x k) = selectEx (fcLoop ws bs x) k := by
  intro ws
  induction ws with
  | nil => intro bs x k; rfl
  | cons w ws ih =>
    intro bs x k
    cases bs with
    | nil => rfl
    | cons b bs =>
      cases ws with
      | nil =>
        show sigmoidT (addBias (matmulT (selectEx x k) w) b) = _
        rw [matmulT_selectEx, addBias_selectEx, sigmoidT_selectEx]
        rfl
      | cons w2 ws2 =>
        show fcLoop (w2 :: ws2) bs
            (reluT (addBias (matmulT (selectEx x k) w) b)) = _
        rw [matmulT_selectEx, addBias_selectEx, reluT_selectEx]
        exact ih bs _ k

/-- C9: for every model, every batch `x` of size `n ≥ 1` and every example
index `k < n`, running the forward pass on the batch of size 1 holding only
example `k` gives exactly the `k`-th row of the forward pass on the whole
batch: there is no cross-example interaction. -/
theorem c9_batch_independence (pad : Padding) (m : Model) (x : Tensor)
    (n : ℤ) (k : ℕ) (hn : x.shape.headI = n) (h1 : 1 ≤ n)
    (hk : (k : ℤ) < n) :
    generate_predictions pad m (selectEx x k) =
      selectEx (generate_predictions pad m x) k := by
  show clipT (fcLoop m.fc_ws m.fc_bs (flatten2 (maxPool pad
      (convLoop pad m.conv_ws m.conv_bs
        (Tensor.zeros [(selectEx x k).shape.headI, 1]) (selectEx x k))))) = _
  have hz : Tensor.zeros [(selectEx x k).shape.headI, 1] =
      selectEx (Tensor.zeros [x.shape.headI, 1]) k := rfl
  rw [hz, convLoop_selectEx, maxPool_selectEx, flatten2_selectEx,
    fcLoop_selectEx, clipT_selectEx]
  rfl

theorem c9_witness :
    generate_predictions .VALID m0 (selectEx x0 2) =
      selectEx (generate_predictions .VALID m0 x0) 2 :=
  c9_batch_independence .VALID m0 x0 4 2 rfl (by norm_num) (by norm_num)

end DScale
